import Mathlib

/-
  Verification of the MedSQLAgent core pipeline against its design document.

  The Python sources are shallowly embedded:
  * Python strings are modelled as lists of characters (`Str`); `str.upper` /
    `str.lower` become character-wise maps (the sources only use them on
    ASCII SQL keywords and schema text).
  * Stateful objects (the schema vector store, the orchestrator) become
    explicit state passing; external collaborators (the LLM provider call,
    JSON parsing, the database engine, CSV export) are passed in as function
    parameters returning `Except`, which models a Python call that either
    returns or raises.
  * The FAISS `IndexFlatL2` collaborator is modelled as a list of exact
    rational vectors searched by squared Euclidean distance with a stable
    insertion sort (ties resolved by insertion order).
-/

namespace MedSQL

/-- A Python string: a sequence of characters. -/
abbrev Str := List Char

/-- Embed a Lean string literal as a `Str`. -/
def str (s : String) : Str := s.toList

/-- Python `str.upper()`, character-wise (ASCII). -/
def pyUpper (s : Str) : Str := s.map Char.toUpper

/-- Python `str.lower()`, character-wise (ASCII). -/
def pyLower (s : Str) : Str := s.map Char.toLower

/-- The whitespace characters stripped by Python `str.strip()`. -/
def pyIsSpace (c : Char) : Bool :=
  c = ' ' || c = '\t' || c = '\n' || c = '\x0d' || c = '\x0b' || c = '\x0c'

/-- Python `str.strip()`: drop leading and trailing whitespace. -/
def pyStrip (s : Str) : Str :=
  ((s.dropWhile pyIsSpace).reverse.dropWhile pyIsSpace).reverse

/-- `isSeg sub s` holds when `sub` is an initial segment of `s`. -/
def isSeg : Str → Str → Bool
  | [], _ => true
  | _ :: _, [] => false
  | a :: as, b :: bs => a = b && isSeg as bs

/-- `occursIn sub s` models Python's `sub in s`: `sub` occurs contiguously in `s`. -/
def occursIn (sub : Str) : Str → Bool
  | [] => isSeg sub []
  | c :: rest => isSeg sub (c :: rest) || occursIn sub rest

/-- Python `sep.join(parts)`. -/
def joinSep (sep : Str) : List Str → Str
  | [] => []
  | [x] => x
  | x :: y :: rest => x ++ sep ++ joinSep sep (y :: rest)

/-- Python slice `xs[:k]` for an arbitrary integer bound `k`
(negative `k` counts back from the end). -/
def pySlice {α : Type} (xs : List α) (k : Int) : List α :=
  if 0 ≤ k then xs.take k.toNat else xs.take ((xs.length : Int) + k).toNat

/-! ## Data model -/

/-- One column of a table, as produced by `DatabaseConnector.get_table_schema`. -/
structure Column where
  name : Str
  type : Str
  nullable : Bool
  default : Option Str
  deriving DecidableEq, Repr, Inhabited

/-- A table schema dictionary (`table_name`, `columns`, `primary_key`). -/
structure TableSchema where
  table_name : Str
  columns : List Column
  primary_key : List Str
  deriving DecidableEq, Repr, Inhabited

namespace DatabaseConnector

/-- The denylist scanned by `DatabaseConnector.validate_query`. -/
def dangerous_keywords : List Str :=
  [str "DROP", str "DELETE", str "TRUNCATE", str "ALTER", str "UPDATE", str "INSERT"]

/-- `DatabaseConnector.validate_query`: uppercase the statement and reject it
when any denylisted keyword occurs as a substring. -/
def validate_query (query : Str) : Bool :=
  let query_upper := pyUpper query
  !(dangerous_keywords.any fun keyword => occursIn keyword query_upper)

end DatabaseConnector

/-! ## Substring lemmas -/

@[simp] theorem isSeg_nil (s : Str) : isSeg [] s = true := by
  cases s <;> rfl

theorem isSeg_refl (l : Str) : isSeg l l = true := by
  induction l with
  | nil => rfl
  | cons a as ih => simp [isSeg, ih]

theorem isSeg_append_left (l m : Str) : isSeg l (l ++ m) = true := by
  induction l with
  | nil => simp
  | cons a as ih => simp [isSeg, ih]

theorem occursIn_self (l : Str) : occursIn l l = true := by
  cases l with
  | nil => rfl
  | cons c rest => simp [occursIn, isSeg_refl]

theorem occursIn_append_right (l m : Str) : occursIn m (l ++ m) = true := by
  induction l with
  | nil => simpa using occursIn_self m
  | cons a as ih => simp [occursIn, ih]

theorem isSeg_nil_right (sub : Str) : isSeg sub [] = true ↔ sub = [] := by
  cases sub <;> simp [isSeg]

/-- An initial segment of a character-wise image is the image of an initial segment. -/
theorem isSeg_map (f : Char → Char) :
    ∀ (sub s : Str), isSeg sub (s.map f) = true ↔ ∃ v, isSeg v s = true ∧ v.map f = sub := by
  intro sub
  induction sub with
  | nil =>
    intro s
    simp
  | cons a as ih =>
    intro s
    cases s with
    | nil =>
      constructor
      · intro h
        simp [isSeg] at h
      · rintro ⟨v, hv, hmap⟩
        rw [isSeg_nil_right] at hv
        subst hv
        simp at hmap
    | cons b bs =>
      constructor
      · intro h
        simp only [List.map_cons, isSeg, Bool.and_eq_true, decide_eq_true_eq] at h
        obtain ⟨hab, hseg⟩ := h
        obtain ⟨w, hw, hwmap⟩ := (ih bs).mp hseg
        exact ⟨b :: w, by simp [isSeg, hw], by simp [hwmap, hab]⟩
      · rintro ⟨v, hv, hmap⟩
        cases v with
        | nil => simp at hmap
        | cons c cs =>
          simp only [isSeg, Bool.and_eq_true, decide_eq_true_eq] at hv
          obtain ⟨hcb, hcs⟩ := hv
          simp only [List.map_cons, List.cons.injEq] at hmap
          obtain ⟨hfa, hfs⟩ := hmap
          subst hcb
          simp only [List.map_cons, isSeg, Bool.and_eq_true, decide_eq_true_eq]
          exact ⟨hfa.symm, (ih bs).mpr ⟨cs, hcs, hfs⟩⟩

/-- A substring of a character-wise image is the image of a substring. -/
theorem occursIn_map (f : Char → Char) :
    ∀ (sub s : Str), occursIn sub (s.map f) = true ↔ ∃ v, occursIn v s = true ∧ v.map f = sub := by
  intro sub s
  induction s with
  | nil =>
    simp only [List.map_nil]
    constructor
    · intro h
      rw [show occursIn sub [] = isSeg sub [] from rfl, isSeg_nil_right] at h
      exact ⟨[], by simp [occursIn], by simp [h]⟩
    · rintro ⟨v, hv, hmap⟩
      rw [show occursIn v [] = isSeg v [] from rfl, isSeg_nil_right] at hv
      subst hv
      simp only [List.map_nil] at hmap
      subst hmap
      rfl
  | cons b bs ih =>
    simp only [List.map_cons]
    rw [show occursIn sub (f b :: bs.map f)
          = (isSeg sub (f b :: bs.map f) || occursIn sub (bs.map f)) from rfl]
    rw [Bool.or_eq_true]
    rw [show (f b :: bs.map f) = (b :: bs).map f from by simp, isSeg_map f sub (b :: bs)]
    rw [ih]
    constructor
    · rintro (⟨v, hv, hmap⟩ | ⟨v, hv, hmap⟩)
      · exact ⟨v, by simp [occursIn, hv], hmap⟩
      · exact ⟨v, by simp [occursIn, hv], hmap⟩
    · rintro ⟨v, hv, hmap⟩
      rw [show occursIn v (b :: bs) = (isSeg v (b :: bs) || occursIn v bs) from rfl,
        Bool.or_eq_true] at hv
      rcases hv with hv | hv
      · exact Or.inl ⟨v, hv, hmap⟩
      · exact Or.inr ⟨v, hv, hmap⟩

/-! ## Claim C1 -/

/-- C1: `DatabaseConnector.validate_query` returns false exactly when the statement
contains one of the six denylisted keywords as a substring in any letter case
(some substring of the query maps character-wise under uppercasing onto the keyword),
and returns true exactly when it contains no such substring. -/
theorem c1 : ∀ q : Str,
    (DatabaseConnector.validate_query q = false ↔
      ∃ kw ∈ DatabaseConnector.dangerous_keywords,
        ∃ v : Str, occursIn v q = true ∧ v.map Char.toUpper = kw)
    ∧ (DatabaseConnector.validate_query q = true ↔
      ∀ kw ∈ DatabaseConnector.dangerous_keywords,
        ∀ v : Str, v.map Char.toUpper = kw → occursIn v q = false) := by
  intro q
  have hfalse : DatabaseConnector.validate_query q = false ↔
      ∃ kw ∈ DatabaseConnector.dangerous_keywords,
        ∃ v : Str, occursIn v q = true ∧ v.map Char.toUpper = kw := by
    unfold DatabaseConnector.validate_query
    rw [Bool.not_eq_false', List.any_eq_true]
    constructor
    · rintro ⟨kw, hkw, hocc⟩
      obtain ⟨v, hv, hvmap⟩ := (occursIn_map Char.toUpper kw q).mp hocc
      exact ⟨kw, hkw, v, hv, hvmap⟩
    · rintro ⟨kw, hkw, v, hv, hvmap⟩
      exact ⟨kw, hkw, (occursIn_map Char.toUpper kw q).mpr ⟨v, hv, hvmap⟩⟩
  refine ⟨hfalse, ?_⟩
  constructor
  · intro htrue kw hkw v hvmap
    by_contra hne
    rw [Bool.not_eq_false] at hne
    have : DatabaseConnector.validate_query q = false :=
      hfalse.mpr ⟨kw, hkw, v, hne, hvmap⟩
    simp [htrue] at this
  · intro h
    by_contra hne
    rw [Bool.not_eq_true] at hne
    obtain ⟨kw, hkw, v, hv, hvmap⟩ := hfalse.mp hne
    have := h kw hkw v hvmap
    simp [this] at hv

/-! ## Schema vector store -/

/-- An embedding vector (FAISS stores float32 vectors; modelled exactly over `ℚ`). -/
abbrev Vec := List ℚ

/-- One metadata record of the store: table name, schema snapshot, formatted text. -/
structure MetaRecord where
  table_name : Str
  schema : TableSchema
  schema_text : Str
  deriving DecidableEq, Repr, Inhabited

/-- One search hit: a metadata record together with its similarity score. -/
structure SearchResult where
  table_name : Str
  schema : TableSchema
  schema_text : Str
  score : ℚ
  deriving DecidableEq, Repr, Inhabited

namespace SchemaVectorStore

/-- The line `_format_schema_text` emits for one column. -/
def column_line (col : Column) : Str :=
  str "  " ++ col.name ++ str " (" ++ col.type ++ str ", " ++
    (if col.nullable then str "nullable" else str "not null") ++ str ")"

/-- The list `text_parts` built by `SchemaVectorStore._format_schema_text`
before joining with newlines. -/
def format_schema_parts (schema : TableSchema) : List Str :=
  ([str "Table: " ++ schema.table_name, str "Columns:"]
      ++ schema.columns.map column_line)
    ++ (if schema.primary_key = [] then []
        else [str "Primary Key: " ++ joinSep (str ", ") schema.primary_key])

/-- `SchemaVectorStore._format_schema_text`: the canonical text for a schema. -/
def format_schema_text (schema : TableSchema) : Str :=
  joinSep (str "\n") (format_schema_parts schema)

/-- Degraded-mode `add_schemas` (FAISS/sentence-transformers unavailable):
append one metadata record per entry, without a vector.
`schemas` is the Python dict in its iteration (insertion) order. -/
def add_schemas_fallback (metadata : List MetaRecord)
    (schemas : List (Str × TableSchema)) : List MetaRecord :=
  schemas.foldl
    (fun md ts => md ++ [⟨ts.1, ts.2, format_schema_text ts.2⟩])
    metadata

/-- Degraded-mode `search`: scan the metadata records in order, keep those whose
formatted text contains the lowercased query, and slice to `top_k` (a Python int). -/
def search_fallback (metadata : List MetaRecord) (query : Str) (top_k : Int) :
    List SearchResult :=
  let query_lower := pyLower query
  let results := metadata.foldl
    (fun acc meta =>
      if occursIn query_lower (pyLower meta.schema_text) then
        acc ++ [⟨meta.table_name, meta.schema, meta.schema_text, 1⟩]
      else acc)
    []
  pySlice results top_k

/-- Squared Euclidean distance, the metric of `faiss.IndexFlatL2`. -/
def dist2 (v w : Vec) : ℚ :=
  (List.zipWith (fun a b => (a - b) * (a - b)) v w).foldl (· + ·) 0

/-- Insert a (distance, index) pair into a sorted hit list, keeping earlier
insertions first among equal distances. -/
def insSorted (p : ℚ × Nat) : List (ℚ × Nat) → List (ℚ × Nat)
  | [] => [p]
  | q :: rest => if q.1 < p.1 then q :: insSorted p rest else p :: q :: rest

/-- Stable sort of (distance, index) pairs by ascending distance. -/
def sortPairs : List (ℚ × Nat) → List (ℚ × Nat)
  | [] => []
  | p :: rest => insSorted p (sortPairs rest)

/-- The `faiss.IndexFlatL2.search` collaborator: the `k` stored vectors nearest
to the query, as (distance, position) pairs, ties broken by insertion order. -/
def faiss_search (vecs : List Vec) (query_embedding : Vec) (k : Nat) :
    List (ℚ × Nat) :=
  (sortPairs (vecs.enum.map fun iv => (dist2 query_embedding iv.2, iv.1))).take k

/-- Embedding-mode `add_schemas`: for each entry format its text, embed it, and
append the vector and the metadata record; finally add all new vectors to the
index and extend the metadata in the same order. -/
def add_schemas (vecs : List Vec) (metadata : List MetaRecord)
    (encode : Str → Vec) (schemas : List (Str × TableSchema)) :
    List Vec × List MetaRecord :=
  let news := schemas.foldl
    (fun acc ts =>
      let schema_text := format_schema_text ts.2
      (acc.1 ++ [encode schema_text], acc.2 ++ [⟨ts.1, ts.2, schema_text⟩]))
    ([], [])
  (vecs ++ news.1, metadata ++ news.2)

/-- Embedding-mode `search`: return `[]` on an empty index, otherwise embed the
query, take the `min top_k ntotal` nearest index positions, and look each one up
in the metadata (skipping positions beyond the metadata), converting distance
to the similarity score `1 / (1 + distance)`. -/
def search (vecs : List Vec) (metadata : List MetaRecord)
    (encode : Str → Vec) (query : Str) (top_k : Nat) : List SearchResult :=
  if vecs.length = 0 then []
  else
    let query_embedding := encode query
    let hits := faiss_search vecs query_embedding (min top_k vecs.length)
    hits.foldl
      (fun acc di =>
        match metadata[di.2]? with
        | some meta =>
            acc ++ [⟨meta.table_name, meta.schema, meta.schema_text, 1 / (1 + di.1)⟩]
        | none => acc)
      []

/-- `SchemaVectorStore.get_all_schemas` builds a Python dict keyed by table name;
`dictInsert` models one dict assignment (update in place, or append a new key). -/
def dictInsert : List (Str × TableSchema) → Str → TableSchema → List (Str × TableSchema)
  | [], k, v => [(k, v)]
  | (k', v') :: rest, k, v =>
      if k' = k then (k, v) :: rest else (k', v') :: dictInsert rest k v

/-- Python dict lookup on the assoc-list model. -/
def dictFind : List (Str × TableSchema) → Str → Option TableSchema
  | [], _ => none
  | (k', v') :: rest, k => if k' = k then some v' else dictFind rest k

/-- `SchemaVectorStore.get_all_schemas`: fold the metadata records into a dict. -/
def get_all_schemas (metadata : List MetaRecord) : List (Str × TableSchema) :=
  metadata.foldl (fun d meta => dictInsert d meta.table_name meta.schema) []

/-- The schema of the most recently added record with a given table name. -/
def lastWrite (metadata : List MetaRecord) (k : Str) : Option TableSchema :=
  (metadata.reverse.find? fun meta => meta.table_name = k).map MetaRecord.schema

/-- `SchemaVectorStore.clear`: a fresh empty index and empty metadata. -/
def clear (_st : List Vec × List MetaRecord) : List Vec × List MetaRecord :=
  ([], [])

end SchemaVectorStore

/-! ## Claim C7 -/

theorem isSeg_pk_table (x : Str) :
    isSeg (str "Primary Key: ") (str "Table: " ++ x) = false := rfl

theorem isSeg_pk_columns : isSeg (str "Primary Key: ") (str "Columns:") = false := rfl

theorem isSeg_pk_column_line (c : Column) :
    isSeg (str "Primary Key: ") (SchemaVectorStore.column_line c) = false := rfl

/-- C7: `_format_schema_text` is a deterministic total function; its output is the
newline-join of `Table: <name>`, the `Columns:` header, one ` <col> (<type>,
nullable|not null)` line per column in declared order, and the `Primary Key:` part
exactly when the primary-key list is non-empty; a zero-column schema still yields
the table name and the bare `Columns:` header. -/
theorem c7 :
    (∀ s t : TableSchema, s = t →
      SchemaVectorStore.format_schema_text s = SchemaVectorStore.format_schema_text t)
    ∧ (∀ s : TableSchema,
        SchemaVectorStore.format_schema_text s =
          joinSep (str "\n")
            (([str "Table: " ++ s.table_name, str "Columns:"]
                ++ s.columns.map SchemaVectorStore.column_line)
              ++ (if s.primary_key = [] then []
                  else [str "Primary Key: " ++ joinSep (str ", ") s.primary_key])))
    ∧ (∀ name : Str,
        SchemaVectorStore.format_schema_text ⟨name, [], []⟩ =
          str "Table: " ++ name ++ str "\nColumns:")
    ∧ (∀ s : TableSchema,
        ((SchemaVectorStore.format_schema_parts s).any fun p =>
            isSeg (str "Primary Key: ") p) = true
          ↔ s.primary_key ≠ []) := by
  refine ⟨fun s t h => by rw [h], fun s => rfl, ?_, ?_⟩
  · intro name
    show ((str "Table: " ++ name) ++ str "\n") ++ str "Columns:"
        = (str "Table: " ++ name) ++ str "\nColumns:"
    rw [List.append_assoc]
    rfl
  · intro s
    constructor
    · intro hany hpk
      simp only [SchemaVectorStore.format_schema_parts, hpk, if_pos rfl,
        List.append_nil, List.any_append, List.any_cons, List.any_nil,
        List.any_map, Function.comp_def, isSeg_pk_table, isSeg_pk_columns,
        isSeg_pk_column_line, Bool.or_false, Bool.false_or] at hany
      simp [isSeg_pk_column_line] at hany
    · intro hpk
      rw [List.any_eq_true]
      refine ⟨str "Primary Key: " ++ joinSep (str ", ") s.primary_key, ?_,
        isSeg_append_left _ _⟩
      simp [SchemaVectorStore.format_schema_parts, hpk]

/-- Witness for C7 at a concrete schema, discharging the determinism hypothesis. -/
theorem c7_witness :
    (SchemaVectorStore.format_schema_text ⟨str "patients", [], []⟩ =
      SchemaVectorStore.format_schema_text ⟨str "patients", [], []⟩)
    ∧ (SchemaVectorStore.format_schema_text ⟨str "patients", [], []⟩ =
      str "Table: " ++ str "patients" ++ str "\nColumns:") :=
  ⟨c7.1 _ _ rfl, c7.2.2.1 (str "patients")⟩

/-! ## Fold characterizations of the store operations -/

theorem foldl_cond_append {α β : Type} (P : α → Bool) (g : α → β) :
    ∀ (l : List α) (acc : List β),
      l.foldl (fun a x => if P x then a ++ [g x] else a) acc
        = acc ++ (l.filter P).map g := by
  intro l
  induction l with
  | nil => intro acc; simp
  | cons x rest ih =>
    intro acc
    rw [List.foldl_cons]
    by_cases h : P x = true
    · rw [if_pos h, ih, List.filter_cons, if_pos h]
      simp
    · rw [if_neg h, ih, List.filter_cons, if_neg h]

theorem foldl_pair_append {α β γ : Type} (g : α → β) (h : α → γ) :
    ∀ (l : List α) (acc : List β × List γ),
      l.foldl (fun a x => (a.1 ++ [g x], a.2 ++ [h x])) acc
        = (acc.1 ++ l.map g, acc.2 ++ l.map h) := by
  intro l
  induction l with
  | nil => intro acc; simp
  | cons x rest ih =>
    intro acc
    rw [List.foldl_cons, ih]
    simp

theorem foldl_len_le {α β : Type} (step : List β → α → List β)
    (hstep : ∀ a x, (step a x).length ≤ a.length + 1) :
    ∀ (l : List α) (acc : List β),
      (l.foldl step acc).length ≤ acc.length + l.length := by
  intro l
  induction l with
  | nil => intro acc; simp
  | cons x rest ih =>
    intro acc
    rw [List.foldl_cons]
    have h1 := ih (step acc x)
    have h2 := hstep acc x
    simp only [List.length_cons]
    omega

theorem insSorted_length (p : ℚ × Nat) :
    ∀ l : List (ℚ × Nat), (SchemaVectorStore.insSorted p l).length = l.length + 1 := by
  intro l
  induction l with
  | nil => rfl
  | cons q rest ih =>
    simp only [SchemaVectorStore.insSorted]
    by_cases h : q.1 < p.1
    · rw [if_pos h]
      simp [ih]
    · rw [if_neg h]
      simp

theorem sortPairs_length :
    ∀ l : List (ℚ × Nat), (SchemaVectorStore.sortPairs l).length = l.length := by
  intro l
  induction l with
  | nil => rfl
  | cons p rest ih =>
    simp only [SchemaVectorStore.sortPairs]
    rw [insSorted_length, ih, List.length_cons]

theorem pySlice_natCast {α : Type} (xs : List α) (k : Nat) :
    pySlice xs (k : Int) = xs.take k := by
  rw [pySlice, if_pos (Int.natCast_nonneg k), Int.toNat_natCast]

/-- The list the degraded-mode `search` loop accumulates: the matching records,
in insertion order, each with score 1. -/
theorem search_fallback_eq (metadata : List MetaRecord) (query : Str) (top_k : Int) :
    SchemaVectorStore.search_fallback metadata query top_k
      = pySlice
          ((metadata.filter fun meta =>
              occursIn (pyLower query) (pyLower meta.schema_text)).map
            fun meta => ⟨meta.table_name, meta.schema, meta.schema_text, 1⟩)
          top_k := by
  rw [SchemaVectorStore.search_fallback]
  rw [foldl_cond_append (fun meta => occursIn (pyLower query) (pyLower meta.schema_text))
    (fun meta => (⟨meta.table_name, meta.schema, meta.schema_text, 1⟩ : SearchResult))
    metadata []]
  rw [List.nil_append]

/-- Degraded-mode `add_schemas` appends exactly one record per entry, in order. -/
theorem add_schemas_fallback_eq (metadata : List MetaRecord)
    (schemas : List (Str × TableSchema)) :
    SchemaVectorStore.add_schemas_fallback metadata schemas
      = metadata ++ schemas.map
          fun ts => ⟨ts.1, ts.2, SchemaVectorStore.format_schema_text ts.2⟩ := by
  rw [SchemaVectorStore.add_schemas_fallback]
  induction schemas generalizing metadata with
  | nil => simp
  | cons ts rest ih =>
    rw [List.foldl_cons, ih]
    simp

/-- Embedding-mode `add_schemas` appends the vectors and the records of the same
entries in the same order. -/
theorem add_schemas_eq (vecs : List Vec) (metadata : List MetaRecord)
    (encode : Str → Vec) (schemas : List (Str × TableSchema)) :
    SchemaVectorStore.add_schemas vecs metadata encode schemas
      = (vecs ++ schemas.map fun ts => encode (SchemaVectorStore.format_schema_text ts.2),
         metadata ++ schemas.map
          fun ts => ⟨ts.1, ts.2, SchemaVectorStore.format_schema_text ts.2⟩) := by
  rw [SchemaVectorStore.add_schemas]
  rw [show (fun (acc : List Vec × List MetaRecord) (ts : Str × TableSchema) =>
        let schema_text := SchemaVectorStore.format_schema_text ts.2
        (acc.1 ++ [encode schema_text],
         acc.2 ++ [(⟨ts.1, ts.2, schema_text⟩ : MetaRecord)]))
      = (fun (acc : List Vec × List MetaRecord) (ts : Str × TableSchema) =>
        (acc.1 ++ [encode (SchemaVectorStore.format_schema_text ts.2)],
         acc.2 ++ [(⟨ts.1, ts.2, SchemaVectorStore.format_schema_text ts.2⟩ : MetaRecord)]))
      from rfl]
  rw [foldl_pair_append]
  simp

/-! ## Claim C5 -/

/-- C5: in degraded mode, `add_schemas` appends one (name, schema, formatted text)
record per entry, and `search` returns exactly the stored records whose formatted
text contains the query case-insensitively, in insertion order, truncated to
`top_k`, each with score 1. -/
theorem c5 :
    (∀ (metadata : List MetaRecord) (schemas : List (Str × TableSchema)),
      SchemaVectorStore.add_schemas_fallback metadata schemas
        = metadata ++ schemas.map
            fun ts => ⟨ts.1, ts.2, SchemaVectorStore.format_schema_text ts.2⟩)
    ∧ (∀ (metadata : List MetaRecord) (query : Str) (top_k : Nat),
      SchemaVectorStore.search_fallback metadata query (top_k : Int)
        = ((metadata.filter fun meta =>
              occursIn (pyLower query) (pyLower meta.schema_text)).map
            fun meta => ⟨meta.table_name, meta.schema, meta.schema_text, 1⟩).take top_k) := by
  refine ⟨add_schemas_fallback_eq, ?_⟩
  intro metadata query top_k
  rw [search_fallback_eq, pySlice_natCast]

/-! ## Claim C9 -/

/-- C9: starting from equal index and metadata counts, embedding-mode `add_schemas`
preserves the equality, appending the vectors and the metadata records of the same
entries in the same order (position `i` of the appended vectors embeds the text of
appended record `i`), and `clear` resets both sides to the same (zero) count. -/
theorem c9 (vecs : List Vec) (metadata : List MetaRecord) (encode : Str → Vec)
    (schemas : List (Str × TableSchema)) (h : vecs.length = metadata.length) :
    ((SchemaVectorStore.add_schemas vecs metadata encode schemas).1.length
      = (SchemaVectorStore.add_schemas vecs metadata encode schemas).2.length)
    ∧ ((SchemaVectorStore.add_schemas vecs metadata encode schemas).1
      = vecs ++ schemas.map fun ts => encode (SchemaVectorStore.format_schema_text ts.2))
    ∧ ((SchemaVectorStore.add_schemas vecs metadata encode schemas).2
      = metadata ++ schemas.map
          fun ts => ⟨ts.1, ts.2, SchemaVectorStore.format_schema_text ts.2⟩)
    ∧ ((SchemaVectorStore.clear (vecs, metadata)).1.length
      = (SchemaVectorStore.clear (vecs, metadata)).2.length) := by
  rw [add_schemas_eq]
  refine ⟨?_, rfl, rfl, rfl⟩
  simp [h]

/-- Witness for C9: one concrete `add_schemas` call from the empty store. -/
theorem c9_witness :
    (SchemaVectorStore.add_schemas [] [] (fun _ => [0])
        [(str "patients", ⟨str "patients", [], []⟩)]).1.length
      = (SchemaVectorStore.add_schemas [] [] (fun _ => [0])
        [(str "patients", ⟨str "patients", [], []⟩)]).2.length :=
  (c9 [] [] (fun _ => [0]) [(str "patients", ⟨str "patients", [], []⟩)] rfl).1

/-! ## Claim C4 -/

/-- C4 as stated is false: with a negative `top_k` Python's slice `results[:top_k]`
still returns results, so on a two-record store with a universally matching query,
`search(q, top_k = -1)` returns one result, which is not "at most min(-1, 2)". -/
theorem c4_counterexample :
    ¬ (((SchemaVectorStore.search_fallback
          [⟨str "a", ⟨str "a", [], []⟩, str "ta"⟩, ⟨str "b", ⟨str "b", [], []⟩, str "tb"⟩]
          (str "") (-1)).length : Int)
        ≤ min (-1)
            (([(⟨str "a", ⟨str "a", [], []⟩, str "ta"⟩ : MetaRecord),
               ⟨str "b", ⟨str "b", [], []⟩, str "tb"⟩] : List MetaRecord).length : Int)) := by
  decide

/-- C4, amended to nonnegative `top_k`: in both modes `search` returns at most
`min top_k n` results for a store of size `n`, and on an empty store it returns the
empty list — in degraded mode even for every (possibly negative) integer `top_k`. -/
theorem c4_amended :
    (∀ (metadata : List MetaRecord) (query : Str) (top_k : Nat),
      (SchemaVectorStore.search_fallback metadata query (top_k : Int)).length
        ≤ min top_k metadata.length)
    ∧ (∀ (vecs : List Vec) (metadata : List MetaRecord) (encode : Str → Vec)
        (query : Str) (top_k : Nat),
      (SchemaVectorStore.search vecs metadata encode query top_k).length
        ≤ min top_k vecs.length)
    ∧ (∀ (query : Str) (top_k : Int),
      SchemaVectorStore.search_fallback [] query top_k = [])
    ∧ (∀ (metadata : List MetaRecord) (encode : Str → Vec) (query : Str) (top_k : Nat),
      SchemaVectorStore.search [] metadata encode query top_k = []) := by
  refine ⟨?_, ?_, ?_, fun _ _ _ _ => rfl⟩
  · intro metadata query top_k
    rw [search_fallback_eq, pySlice_natCast, List.length_take, List.length_map]
    exact min_le_min (le_refl top_k) (List.length_filter_le _ metadata)
  · intro vecs metadata encode query top_k
    rw [SchemaVectorStore.search]
    by_cases h : vecs.length = 0
    · rw [if_pos h]
      simp
    · rw [if_neg h]
      have hlen : (SchemaVectorStore.faiss_search vecs (encode query)
          (min top_k vecs.length)).length = min top_k vecs.length := by
        rw [SchemaVectorStore.faiss_search, List.length_take, sortPairs_length,
          List.length_map, List.enum_length]
        exact min_eq_left (min_le_right top_k vecs.length)
      have hfold := foldl_len_le
        (fun (acc : List SearchResult) (di : ℚ × Nat) =>
          match metadata[di.2]? with
          | some meta =>
              acc ++ [⟨meta.table_name, meta.schema, meta.schema_text, 1 / (1 + di.1)⟩]
          | none => acc)
        (fun acc di => by
          cases hx : metadata[di.2]? with
          | some meta => simp [hx]
          | none => simp [hx])
        (SchemaVectorStore.faiss_search vecs (encode query) (min top_k vecs.length)) []
      simpa [hlen] using hfold
  · intro query top_k
    rw [search_fallback_eq]
    simp [pySlice]

/-! ## Claim C6 -/

/-- C6: adding a single table `T` to an empty store and searching for the exact
formatted text of `T` with `top_k = 1` returns `T` as the unique result, both in
degraded mode and in embedding mode (any embedding function). -/
theorem c6 : ∀ (T : Str) (S : TableSchema) (encode : Str → Vec),
    ((SchemaVectorStore.search_fallback
        (SchemaVectorStore.add_schemas_fallback [] [(T, S)])
        (SchemaVectorStore.format_schema_text S) 1).map SearchResult.table_name = [T])
    ∧ ((SchemaVectorStore.search
        (SchemaVectorStore.add_schemas [] [] encode [(T, S)]).1
        (SchemaVectorStore.add_schemas [] [] encode [(T, S)]).2
        encode (SchemaVectorStore.format_schema_text S) 1).map
          SearchResult.table_name = [T]) := by
  intro T S encode
  constructor
  · rw [search_fallback_eq, add_schemas_fallback_eq]
    simp [occursIn_self, pySlice]
  · rw [add_schemas_eq]
    simp only [List.nil_append, List.map_cons, List.map_nil]
    rfl

/-! ## Python-dict lemmas for `get_all_schemas` -/

theorem dictFind_dictInsert (a : Str) (v : TableSchema) :
    ∀ (d : List (Str × TableSchema)) (b : Str),
      SchemaVectorStore.dictFind (SchemaVectorStore.dictInsert d a v) b
        = if a = b then some v else SchemaVectorStore.dictFind d b := by
  intro d
  induction d with
  | nil =>
    intro b
    simp [SchemaVectorStore.dictInsert, SchemaVectorStore.dictFind]
  | cons cw rest ih =>
    obtain ⟨c, w⟩ := cw
    intro b
    by_cases hca : c = a
    · subst hca
      by_cases hab : c = b <;>
        simp [SchemaVectorStore.dictInsert, SchemaVectorStore.dictFind, hab]
    · rw [show SchemaVectorStore.dictInsert ((c, w) :: rest) a v
          = (c, w) :: SchemaVectorStore.dictInsert rest a v by
        simp [SchemaVectorStore.dictInsert, hca]]
      by_cases hcb : c = b
      · subst hcb
        have hab : ¬ a = c := fun hh => hca hh.symm
        simp [SchemaVectorStore.dictFind, hab]
      · simp [SchemaVectorStore.dictFind, hcb, ih]

theorem dictInsert_keys (a : Str) (v : TableSchema) :
    ∀ d : List (Str × TableSchema),
      (SchemaVectorStore.dictInsert d a v).map Prod.fst
        = if a ∈ d.map Prod.fst then d.map Prod.fst
          else d.map Prod.fst ++ [a] := by
  intro d
  induction d with
  | nil => simp [SchemaVectorStore.dictInsert]
  | cons cw rest ih =>
    obtain ⟨c, w⟩ := cw
    by_cases hca : c = a
    · subst hca
      simp [SchemaVectorStore.dictInsert]
    · have hac : ¬ a = c := fun hh => hca hh.symm
      rw [show SchemaVectorStore.dictInsert ((c, w) :: rest) a v
          = (c, w) :: SchemaVectorStore.dictInsert rest a v by
        simp [SchemaVectorStore.dictInsert, hca]]
      by_cases hm : a ∈ rest.map Prod.fst
      · simp [ih, hm, hac]
      · simp [ih, hm, hac]

theorem dictInsert_keys_mem (a : Str) (v : TableSchema)
    (d : List (Str × TableSchema)) (b : Str) :
    b ∈ (SchemaVectorStore.dictInsert d a v).map Prod.fst
      ↔ b = a ∨ b ∈ d.map Prod.fst := by
  rw [dictInsert_keys]
  by_cases hm : a ∈ d.map Prod.fst
  · rw [if_pos hm]
    constructor
    · exact Or.inr
    · rintro (rfl | hb)
      · exact hm
      · exact hb
  · rw [if_neg hm]
    simp [List.mem_append, or_comm]

theorem dictInsert_nodup (a : Str) (v : TableSchema)
    (d : List (Str × TableSchema)) (h : (d.map Prod.fst).Nodup) :
    ((SchemaVectorStore.dictInsert d a v).map Prod.fst).Nodup := by
  rw [dictInsert_keys]
  by_cases hm : a ∈ d.map Prod.fst
  · rw [if_pos hm]
    exact h
  · rw [if_neg hm]
    refine List.Nodup.append h (List.nodup_singleton a) ?_
    intro x hx hx2
    rw [List.mem_singleton] at hx2
    subst hx2
    exact hm hx

theorem get_all_keys_mem :
    ∀ (metadata : List MetaRecord) (d : List (Str × TableSchema)) (b : Str),
      b ∈ ((metadata.foldl
            (fun d meta => SchemaVectorStore.dictInsert d meta.table_name meta.schema)
            d).map Prod.fst)
        ↔ b ∈ d.map Prod.fst ∨ b ∈ metadata.map MetaRecord.table_name := by
  intro metadata
  induction metadata with
  | nil =>
    intro d b
    simp
  | cons m rest ih =>
    intro d b
    rw [List.foldl_cons, ih, dictInsert_keys_mem]
    simp only [List.map_cons, List.mem_cons]
    tauto

theorem get_all_keys_nodup :
    ∀ (metadata : List MetaRecord) (d : List (Str × TableSchema)),
      (d.map Prod.fst).Nodup →
      (((metadata.foldl
          (fun d meta => SchemaVectorStore.dictInsert d meta.table_name meta.schema)
          d)).map Prod.fst).Nodup := by
  intro metadata
  induction metadata with
  | nil =>
    intro d h
    exact h
  | cons m rest ih =>
    intro d h
    rw [List.foldl_cons]
    exact ih _ (dictInsert_nodup _ _ _ h)

theorem get_all_schemas_find :
    ∀ (metadata : List MetaRecord) (d : List (Str × TableSchema)) (k : Str),
      SchemaVectorStore.dictFind
        (metadata.foldl
          (fun d meta => SchemaVectorStore.dictInsert d meta.table_name meta.schema) d) k
        = metadata.foldl
            (fun acc meta => if meta.table_name = k then some meta.schema else acc)
            (SchemaVectorStore.dictFind d k) := by
  intro metadata
  induction metadata with
  | nil =>
    intro d k
    rfl
  | cons m rest ih =>
    intro d k
    rw [List.foldl_cons, List.foldl_cons, ih, dictFind_dictInsert]

theorem find?_concat {α : Type} (p : α → Bool) (x : α) :
    ∀ l : List α,
      (l ++ [x]).find? p
        = match l.find? p with
          | some y => some y
          | none => if p x then some x else none := by
  intro l
  induction l with
  | nil =>
    by_cases h : p x = true <;> simp [List.find?, h]
  | cons a rest ih =>
    by_cases h : p a = true
    · simp [List.find?, h]
    · rw [Bool.not_eq_true] at h
      simp only [List.cons_append, List.find?, h]
      exact ih

theorem foldl_lastWrite (k : Str) :
    ∀ (metadata : List MetaRecord) (acc : Option TableSchema),
      metadata.foldl
          (fun acc meta => if meta.table_name = k then some meta.schema else acc) acc
        = match metadata.reverse.find? (fun meta => meta.table_name = k) with
          | some m => some m.schema
          | none => acc := by
  intro metadata
  induction metadata with
  | nil =>
    intro acc
    rfl
  | cons m rest ih =>
    intro acc
    rw [List.foldl_cons, ih, List.reverse_cons, find?_concat]
    cases hf : rest.reverse.find? (fun meta => meta.table_name = k) with
    | some y => rfl
    | none =>
      by_cases h : m.table_name = k <;> simp [h]

/-! ## Claim C10 -/

/-- C10: `get_all_schemas` returns a mapping with exactly one entry per distinct
stored table name (its key list is duplicate-free and a name is a key exactly when
some record bears it), and each name is bound to the schema of the most recently
added record with that name (last write wins). -/
theorem c10 : ∀ metadata : List MetaRecord,
    ((SchemaVectorStore.get_all_schemas metadata).map Prod.fst).Nodup
    ∧ (∀ k : Str,
        k ∈ (SchemaVectorStore.get_all_schemas metadata).map Prod.fst
          ↔ k ∈ metadata.map MetaRecord.table_name)
    ∧ (∀ k : Str,
        SchemaVectorStore.dictFind (SchemaVectorStore.get_all_schemas metadata) k
          = SchemaVectorStore.lastWrite metadata k) := by
  intro metadata
  refine ⟨?_, ?_, ?_⟩
  · exact get_all_keys_nodup metadata [] (by simp)
  · intro k
    simpa using get_all_keys_mem metadata [] k
  · intro k
    rw [SchemaVectorStore.get_all_schemas, get_all_schemas_find metadata [] k]
    rw [show SchemaVectorStore.dictFind [] k = none from rfl]
    rw [foldl_lastWrite k metadata none, SchemaVectorStore.lastWrite]
    cases hf : metadata.reverse.find? (fun meta => meta.table_name = k) <;> simp [hf]

/-! ## Generation client and orchestrator -/

/-- The structured generation result consumed by the orchestrator. -/
structure GenResult where
  sql : Str
  explanation : Str
  confidence : ℚ
  tables_used : List Str
  deriving DecidableEq, Repr, Inhabited

/-- A tabular query result: the rows of the DataFrame. -/
abbrev Df := List (List Str)

/-- The outcome dictionary of `execute_natural_query`; keys the code does not put
in a given dictionary are `none`. -/
structure Outcome where
  success : Bool
  error : Option Str := none
  sql : Option Str := none
  explanation : Option Str := none
  confidence : Option ℚ := none
  data : Option Df := none
  csv_path : Option Str := none
  row_count : Option Nat := none
  deriving DecidableEq, Repr

/-- The LLM provider branch selected in `SQLAgent.__init__`. -/
inductive Provider
  | openai
  | claude
  | ollama
  deriving DecidableEq, Repr

/-- The opening-brace character. -/
def braceOpen : Char := Char.ofNat 123

/-- The closing-brace character. -/
def braceClose : Char := Char.ofNat 125

/-- The greedy brace regex search used by the claude and ollama branches: the span
from the first opening brace to the last closing brace, provided the latter comes
after the former. -/
def extract_braces (s : Str) : Option Str :=
  match s.findIdx? (fun c => c == braceOpen),
        s.reverse.findIdx? (fun c => c == braceClose) with
  | some i, some j' =>
      let j := s.length - 1 - j'
      if i < j then some ((s.drop i).take (j - i + 1)) else none
  | _, _ => none

namespace DatabaseConnector

/-- `DatabaseConnector.execute_query`: run the statement through the engine
(modelled by `provider`); an engine error is re-raised as
`SQL execution error: <text>`. -/
def execute_query (provider : Str → Except Str Df) (query : Str) : Except Str Df :=
  match provider query with
  | Except.error e => Except.error (str "SQL execution error: " ++ e)
  | Except.ok df => Except.ok df

end DatabaseConnector

namespace SQLAgent

/-- The placeholder statement of the ollama safe-failure result. -/
def error_sql : Str := str "SELECT 'Error generating SQL' AS error_message"

/-- `SQLAgent.generate_sql`, per provider branch. `call` is the provider transport
outcome (`Except.error` models a raised exception, `Except.ok` the content text)
and `parse` models `json.loads` on a given text. Only the ollama branch wraps its
body in try/except; in the claude branch the brace-extraction of the content is
parsed when it exists, otherwise the whole content is parsed; in the ollama branch
a parse failure falls back to brace extraction and finally to a content-echoing
result with confidence 0.7, any exception becoming the safe-failure result. -/
def generate_sql (provider : Provider) (call : Except Str Str)
    (parse : Str → Except Str GenResult) : Except Str GenResult :=
  match provider with
  | Provider.openai =>
      match call with
      | Except.error e => Except.error e
      | Except.ok content => parse content
  | Provider.claude =>
      match call with
      | Except.error e => Except.error e
      | Except.ok content =>
          match extract_braces content with
          | some j => parse j
          | none => parse content
  | Provider.ollama =>
      match call with
      | Except.error e =>
          Except.ok ⟨error_sql, str "Failed to generate SQL: " ++ e, 0, []⟩
      | Except.ok content =>
          match parse content with
          | Except.ok result => Except.ok result
          | Except.error _ =>
              match extract_braces content with
              | some j =>
                  match parse j with
                  | Except.ok result => Except.ok result
                  | Except.error e2 =>
                      Except.ok ⟨error_sql, str "Failed to generate SQL: " ++ e2, 0, []⟩
              | none =>
                  Except.ok ⟨pyStrip content, str "SQL query generated by Ollama",
                    7/10, []⟩

/-- `SQLAgent.execute_natural_query`: generate, validate, execute, export; the
try/except turns any raised exception into a failure outcome. The second component
is the trace of statements passed to the engine's execute. -/
def execute_natural_query (gen : Except Str GenResult)
    (dbExec : Str → Except Str Df) (csvExport : Df → Except Str Str) :
    Outcome × List Str :=
  match gen with
  | Except.error e => ({ success := false, error := some e }, [])
  | Except.ok sql_result =>
      let sql_query := sql_result.sql
      if DatabaseConnector.validate_query sql_query then
        match DatabaseConnector.execute_query dbExec sql_query with
        | Except.error e =>
            ({ success := false, error := some e, sql := some sql_query }, [sql_query])
        | Except.ok df =>
            match csvExport df with
            | Except.error e =>
                ({ success := false, error := some e, sql := some sql_query },
                  [sql_query])
            | Except.ok csv_path =>
                ({ success := true, sql := some sql_query,
                   explanation := some sql_result.explanation,
                   confidence := some sql_result.confidence,
                   data := some df, csv_path := some csv_path,
                   row_count := some df.length }, [sql_query])
      else
        ({ success := false, error := some (str "Query contains unsafe operations"),
           sql := some sql_query }, [])

end SQLAgent

namespace SQLFunctionCallingAgent

/-- `SQLFunctionCallingAgent.generate_sql`: no exception handling at all; on success
the constant confidence 0.9 is added to the parsed tool-call arguments. -/
def generate_sql (call : Except Str GenResult) : Except Str GenResult :=
  match call with
  | Except.error e => Except.error e
  | Except.ok result => Except.ok { result with confidence := 9 / 10 }

end SQLFunctionCallingAgent

/-! ## Claim C2 -/

/-- C2: when the generated SQL fails validation, the orchestrator returns a failure
outcome with the fixed unsafe-operation error and the rejected statement as its sql,
and the engine execute trace is empty — execute is never invoked. -/
theorem c2 (sql_result : GenResult) (dbExec : Str → Except Str Df)
    (csvExport : Df → Except Str Str)
    (h : DatabaseConnector.validate_query sql_result.sql = false) :
    SQLAgent.execute_natural_query (Except.ok sql_result) dbExec csvExport
      = ({ success := false, error := some (str "Query contains unsafe operations"),
           sql := some sql_result.sql }, []) := by
  simp [SQLAgent.execute_natural_query, h]

/-- Witness for C2 at the spec's scenario B statement `DELETE FROM patients`. -/
theorem c2_witness :
    SQLAgent.execute_natural_query
        (Except.ok ⟨str "DELETE FROM patients", str "", 0, []⟩)
        (fun _ => Except.ok []) (fun _ => Except.ok (str "out.csv"))
      = ({ success := false, error := some (str "Query contains unsafe operations"),
           sql := some (str "DELETE FROM patients") }, []) :=
  c2 ⟨str "DELETE FROM patients", str "", 0, []⟩
    (fun _ => Except.ok []) (fun _ => Except.ok (str "out.csv")) (by decide)

/-! ## Claim C3 -/

/-- C3 as stated is false: in the openai variant a provider transport failure
propagates out of `generate_sql` (an `Except.error`, modelling a raised exception)
instead of degrading to a confidence-0 placeholder result. -/
theorem c3_counterexample :
    SQLAgent.generate_sql Provider.openai (Except.error (str "connection failed"))
        (fun _ => Except.error (str "expecting value"))
      = Except.error (str "connection failed") := rfl

/-- C3, amended: only the ollama variant degrades to the safe failure result — on a
provider failure it returns (never raises) the non-empty harmless placeholder
statement with confidence 0, empty tables_used, and an explanation containing the
failure text; the openai and claude variants, and the function-calling agent,
propagate provider failures (and, for openai, parse failures) to their caller. -/
theorem c3_amended :
    ∀ (e : Str) (parse : Str → Except Str GenResult) (content pe : Str),
    (SQLAgent.generate_sql Provider.ollama (Except.error e) parse
      = Except.ok ⟨SQLAgent.error_sql, str "Failed to generate SQL: " ++ e, 0, []⟩)
    ∧ SQLAgent.error_sql ≠ []
    ∧ occursIn e (str "Failed to generate SQL: " ++ e) = true
    ∧ SQLAgent.generate_sql Provider.openai (Except.error e) parse = Except.error e
    ∧ SQLAgent.generate_sql Provider.claude (Except.error e) parse = Except.error e
    ∧ SQLAgent.generate_sql Provider.openai (Except.ok content)
        (fun _ => Except.error pe) = Except.error pe
    ∧ SQLFunctionCallingAgent.generate_sql (Except.error e) = Except.error e := by
  intro e parse content pe
  exact ⟨rfl, by decide, occursIn_append_right _ _, rfl, rfl, rfl, rfl⟩

/-! ## Claim C8 -/

/-- C8: when validation passes and the engine raises, the orchestrator returns
(does not raise) a failure outcome whose error contains the engine's error text and
whose sql is the attempted statement, which was passed to execute exactly once. -/
theorem c8 (sql_result : GenResult) (dbExec : Str → Except Str Df)
    (csvExport : Df → Except Str Str) (emsg : Str)
    (h1 : DatabaseConnector.validate_query sql_result.sql = true)
    (h2 : dbExec sql_result.sql = Except.error emsg) :
    (SQLAgent.execute_natural_query (Except.ok sql_result) dbExec csvExport
      = ({ success := false, error := some (str "SQL execution error: " ++ emsg),
           sql := some sql_result.sql }, [sql_result.sql]))
    ∧ occursIn emsg (str "SQL execution error: " ++ emsg) = true := by
  constructor
  · simp [SQLAgent.execute_natural_query, DatabaseConnector.execute_query, h1, h2]
  · exact occursIn_append_right _ _

/-- Witness for C8 at the spec's scenario D: a connectivity error during execute. -/
theorem c8_witness :
    (SQLAgent.execute_natural_query
        (Except.ok ⟨str "SELECT 1", str "", 0, []⟩)
        (fun _ => Except.error (str "connection to server lost"))
        (fun _ => Except.ok (str "out.csv"))
      = ({ success := false,
           error := some (str "SQL execution error: "
              ++ str "connection to server lost"),
           sql := some (str "SELECT 1") }, [str "SELECT 1"]))
    ∧ occursIn (str "connection to server lost")
        (str "SQL execution error: " ++ str "connection to server lost") = true :=
  c8 ⟨str "SELECT 1", str "", 0, []⟩
    (fun _ => Except.error (str "connection to server lost"))
    (fun _ => Except.ok (str "out.csv"))
    (str "connection to server lost") (by decide) rfl

end MedSQL
